import Mathlib

/-!
Verification development for the performance-metrics core of the stock
backtester (`src/backtester.py`).

Modelling conventions:
* A price series (`pandas.Series` of closing prices) is a `List ℚ`.
* `pct_change`, `cumprod`, `cummax`, elementwise series arithmetic and
  `min` are translated operation by operation.
* pandas produces `NaN` in exactly two places reachable here: the sample
  standard deviation of fewer than two observations, and the minimum of
  an empty series.  Both are modelled as `Option.none`.
* Quantities whose source computation uses `sqrt` or a fractional power
  (volatility, annualized return, Sharpe ratio) live in `ℝ`; everything
  the source computes with field operations only stays in `ℚ`.
* The final `round(x, 2)` calls in `calculate_metrics` are presentation
  only; the record modelled here holds the full-precision values.
-/

/-- Constant from src/backtester.py line 24: `RISK_FREE_RATE = 0.04`. -/
def RISK_FREE_RATE : ℝ := 0.04

/-- Line 79: `daily_returns = prices.pct_change().dropna()`.
`pct_change` divides each element by its predecessor and subtracts 1; the
leading `NaN` is dropped, leaving one return per consecutive pair. -/
def daily_returns (p : List ℚ) : List ℚ :=
  List.zipWith (fun a b => b / a - 1) p p.tail

/-- Line 82: `total_return = (prices.iloc[-1] / prices.iloc[0] - 1) * 100`. -/
def total_return (p : List ℚ) : ℚ :=
  (p.getLastI / p.headI - 1) * 100

/-- Line 85: `years = len(prices) / 252`. -/
def years (p : List ℚ) : ℚ := (p.length : ℚ) / 252

/-- Line 86: `annualized_return = ((1 + total_return / 100) ** (1 / years) - 1) * 100`. -/
noncomputable def annualized_return (p : List ℚ) : ℝ :=
  ((1 + (total_return p : ℝ) / 100) ^ ((1 : ℝ) / (years p : ℝ)) - 1) * 100

/-- Mean of a series, as used inside `pandas.Series.std`. -/
def seriesMean (r : List ℚ) : ℚ := r.sum / (r.length : ℚ)

/-- Sample variance with `ddof = 1`, the quantity under the square root in
`pandas.Series.std`. -/
def sampleVariance (r : List ℚ) : ℚ :=
  (r.map (fun x => (x - seriesMean r) ^ 2)).sum / ((r.length : ℚ) - 1)

/-- `pandas.Series.std()`: the sample standard deviation, which is `NaN`
(modelled `none`) when fewer than two observations exist. -/
noncomputable def seriesStd (r : List ℚ) : Option ℝ :=
  if 2 ≤ r.length then some (Real.sqrt (sampleVariance r)) else none

/-- Line 89: `volatility = daily_returns.std() * (252 ** 0.5) * 100`. -/
noncomputable def volatility (p : List ℚ) : Option ℝ :=
  (seriesStd (daily_returns p)).map (fun s => s * Real.sqrt 252 * 100)

/-- Accumulating scan underlying the pandas cumulative operations: each
output element is `f` applied to the running accumulator and the input. -/
def cumulAux (f : ℚ → ℚ → ℚ) : ℚ → List ℚ → List ℚ
  | _, [] => []
  | acc, x :: xs => f acc x :: cumulAux f (f acc x) xs

/-- `pandas.Series.cumprod()`. -/
def cumprod (l : List ℚ) : List ℚ := cumulAux (· * ·) 1 l

/-- `pandas.Series.cummax()` (first output element is the first input). -/
def cummax (l : List ℚ) : List ℚ := cumulAux max l.headI l

/-- Line 92: `cumulative = (1 + daily_returns).cumprod()`.  Note the path
has one point per return; pandas does not prepend an initial 1. -/
def cumulative (p : List ℚ) : List ℚ :=
  cumprod ((daily_returns p).map (fun r => 1 + r))

/-- Line 93: `rolling_max = cumulative.cummax()`. -/
def rolling_max (p : List ℚ) : List ℚ := cummax (cumulative p)

/-- Line 94: `drawdown = (cumulative - rolling_max) / rolling_max`
(elementwise on the aligned series). -/
def drawdown (p : List ℚ) : List ℚ :=
  List.zipWith (fun c m => (c - m) / m) (cumulative p) (rolling_max p)

/-- Line 95: `max_drawdown = drawdown.min() * 100`; the minimum of an
empty series is `NaN` (`none`). -/
def max_drawdown (p : List ℚ) : Option ℚ :=
  (drawdown p).min?.map (fun d => d * 100)

/-- Lines 98-99: `excess_return = annualized_return / 100 - RISK_FREE_RATE`;
`sharpe_ratio = excess_return / (volatility / 100) if volatility > 0 else 0`.
A `NaN` volatility fails the `volatility > 0` test, so that branch also
yields 0. -/
noncomputable def sharpe_ratio (p : List ℚ) : ℝ :=
  match volatility p with
  | none => 0
  | some v =>
    if 0 < v then (annualized_return p / 100 - RISK_FREE_RATE) / (v / 100) else 0

/-- The dictionary returned by `calculate_metrics` (full-precision values;
the source rounds each for presentation). -/
structure MetricsRecord where
  ticker : String
  totalReturn : ℚ
  annualizedReturn : ℝ
  vol : Option ℝ
  maxDrawdown : Option ℚ
  sharpe : ℝ

/-- Lines 76-108: `calculate_metrics(prices, name)`.  On the empty series
`prices.iloc[-1]` raises (modelled `none`); on any non-empty series a
record is returned — the source contains no length guard. -/
noncomputable def calculate_metrics (p : List ℚ) (name : String) : Option MetricsRecord :=
  match p with
  | [] => none
  | _ :: _ =>
    some ⟨name, total_return p, annualized_return p, volatility p,
          max_drawdown p, sharpe_ratio p⟩

/-- Lines 142-145 (`generate_chart`): `normalized = prices / prices.iloc[0] * 100`. -/
def normalizeSeries (p : List ℚ) : List ℚ :=
  p.map (fun x => x / p.headI * 100)

/-- Per-symbol body of the loops in `main` (lines 188-208): fetch the
series (a supplier `NotFound` is modelled as `none`), compute metrics,
and keep the pair; any failure is caught and the symbol is skipped. -/
noncomputable def processTicker (fetch : String → Option (List ℚ)) (t : String) :
    Option (MetricsRecord × List ℚ) :=
  match fetch t with
  | none => none
  | some prices =>
    match calculate_metrics prices t with
    | none => none
    | some m => some (m, prices)

/-- One iteration of the `main` loop: on success append the metrics record
to `results` and the series to `price_data`; on failure leave both as is. -/
noncomputable def runStep (fetch : String → Option (List ℚ))
    (acc : List MetricsRecord × List (String × List ℚ)) (t : String) :
    List MetricsRecord × List (String × List ℚ) :=
  match processTicker fetch t with
  | none => acc
  | some (m, prices) => (acc.1 ++ [m], acc.2 ++ [(t, prices)])

/-- Lines 184-212 of `main`: process the requested tickers in order, then
the benchmark index if present; if `results` is empty afterwards the run
terminates with "No data to analyze" (the `NoUsableDataError` outcome,
modelled `none`). -/
noncomputable def runComparison (fetch : String → Option (List ℚ))
    (tickers : List String) (benchmark : Option String) :
    Option (List MetricsRecord × List (String × List ℚ)) :=
  let acc := (tickers ++ benchmark.toList).foldl (runStep fetch) ([], [])
  if acc.1.isEmpty then none else some acc

/-- Modelled from the spec (claim C2): the cumulative growth path with
initial point, `c_i` is the product of `(1 + r_j)` over the first `i`
returns, so `c_0 = 1`. -/
def specCumPath (p : List ℚ) (i : ℕ) : ℚ :=
  ∏ j ∈ Finset.range i, (1 + (daily_returns p).getD j 0)

/-- Modelled from the spec (claim C2): running maximum of the path up to
and including index `i`, starting from `c_0 = 1`. -/
def specRunMax (p : List ℚ) (i : ℕ) : ℚ :=
  (Finset.range (i + 1)).sup' Finset.nonempty_range_succ (specCumPath p)

/-- Modelled from the spec (claim C2): minimum over the whole path
(indices `0..m`, `m` the number of returns) of
`(c_i - runningMax_i) / runningMax_i`, times 100. -/
def maxDrawdownSpec (p : List ℚ) : ℚ :=
  ((Finset.range ((daily_returns p).length + 1)).inf' Finset.nonempty_range_succ
    (fun i => (specCumPath p i - specRunMax p i) / specRunMax p i)) * 100

/-- Running maximum of the path points `c_1 .. c_{i+1}` only — the initial
value `c_0 = 1` is not part of the path the code builds. -/
def specRunMax1 (p : List ℚ) (i : ℕ) : ℚ :=
  (Finset.range (i + 1)).sup' Finset.nonempty_range_succ (fun j => specCumPath p (j + 1))

/-- Mean of the returns, written over `ℝ` as in the formula of the spec. -/
noncomputable def seriesMeanR (r : List ℚ) : ℝ :=
  (r.map (fun x : ℚ => (x : ℝ))).sum / (r.length : ℝ)

/-- Sample standard deviation (divide by `n - 1`), written over `ℝ`
following the wording of the spec for claim C3. -/
noncomputable def sampleStdR (r : List ℚ) : ℝ :=
  Real.sqrt ((r.map (fun x : ℚ => ((x : ℝ) - seriesMeanR r) ^ 2)).sum / ((r.length : ℝ) - 1))

/-! ### Helper lemmas about the list-level operations -/

theorem length_daily_returns (p : List ℚ) : (daily_returns p).length = p.length - 1 := by
  simp [daily_returns, List.length_zipWith, List.length_tail]

theorem daily_returns_getD (p : List ℚ) (j : ℕ) (hj : j + 1 < p.length) :
    (daily_returns p).getD j 0 = p.getD (j + 1) 0 / p.getD j 0 - 1 := by
  have hlen : j < (daily_returns p).length := by
    rw [length_daily_returns]; omega
  have hj' : j < p.length := by omega
  have hjt : j < p.tail.length := by
    rw [List.length_tail]; omega
  rw [List.getD_eq_getElem _ _ hlen, List.getD_eq_getElem _ _ hj,
    List.getD_eq_getElem _ _ hj']
  show (List.zipWith (fun a b => b / a - 1) p p.tail).get ⟨j, hlen⟩ = _
  rw [List.get_eq_getElem, List.getElem_zipWith, List.getElem_tail]

theorem length_cumulAux (f : ℚ → ℚ → ℚ) (a : ℚ) (l : List ℚ) :
    (cumulAux f a l).length = l.length := by
  induction l generalizing a with
  | nil => rfl
  | cons x xs ih => simp [cumulAux, ih]

theorem cumulAux_getD_zero (f : ℚ → ℚ → ℚ) (a x : ℚ) (xs : List ℚ) :
    (cumulAux f a (x :: xs)).getD 0 0 = f a x := rfl

theorem cumulAux_getD_succ (f : ℚ → ℚ → ℚ) (l : List ℚ) (a : ℚ) (i : ℕ)
    (h : i + 1 < l.length) :
    (cumulAux f a l).getD (i + 1) 0 =
      f ((cumulAux f a l).getD i 0) (l.getD (i + 1) 0) := by
  induction l generalizing a i with
  | nil => simp at h
  | cons x xs ih =>
    cases i with
    | zero =>
      match xs, h with
      | y :: ys, _ => rfl
    | succ k =>
      have hk : k + 1 < xs.length := by
        simp at h; omega
      have h2 := ih (f a x) k hk
      simpa [cumulAux] using h2

theorem sup'_range_succ (f : ℕ → ℚ) (n : ℕ) (hn : n ≠ 0) :
    (Finset.range (n + 1)).sup' Finset.nonempty_range_succ f
      = max ((Finset.range n).sup' (Finset.nonempty_range_iff.mpr hn) f) (f n) := by
  apply le_antisymm
  · apply Finset.sup'_le
    intro j hj
    rcases Nat.lt_succ_iff_lt_or_eq.mp (Finset.mem_range.mp hj) with hj' | rfl
    · exact le_max_of_le_left (Finset.le_sup' f (Finset.mem_range.mpr hj'))
    · exact le_max_right _ _
  · apply max_le
    · apply Finset.sup'_le
      intro j hj
      exact Finset.le_sup' f (Finset.mem_range.mpr (Nat.lt_succ_of_lt (Finset.mem_range.mp hj)))
    · exact Finset.le_sup' f (Finset.mem_range.mpr (Nat.lt_succ_self n))

theorem cumprod_getD (l : List ℚ) (i : ℕ) (h : i < l.length) :
    (cumprod l).getD i 0 = ∏ j ∈ Finset.range (i + 1), l.getD j 0 := by
  induction i with
  | zero =>
    match l, h with
    | x :: xs, _ =>
      rw [Finset.prod_range_one]
      show (cumulAux (· * ·) 1 (x :: xs)).getD 0 0 = (x :: xs).getD 0 0
      rw [cumulAux_getD_zero]
      simp
  | succ k ih =>
    have hk : k < l.length := by omega
    rw [cumprod, cumulAux_getD_succ _ _ _ _ h, ← cumprod, ih hk]
    exact (Finset.prod_range_succ (fun j => l.getD j 0) (k + 1)).symm

theorem cummax_getD (l : List ℚ) (i : ℕ) (h : i < l.length) :
    (cummax l).getD i 0 =
      (Finset.range (i + 1)).sup' Finset.nonempty_range_succ (fun j => l.getD j 0) := by
  induction i with
  | zero =>
    match l, h with
    | x :: xs, _ =>
      show (cumulAux max (x :: xs).headI (x :: xs)).getD 0 0 = _
      rw [cumulAux_getD_zero]
      simp [Finset.range_one]
  | succ k ih =>
    have hk : k < l.length := by omega
    rw [cummax, cumulAux_getD_succ _ _ _ _ h, ← cummax, ih hk,
      sup'_range_succ (fun j => l.getD j 0) (k + 1) (Nat.succ_ne_zero k)]

theorem min?_eq_some_iff_rat (l : List ℚ) (a : ℚ) :
    l.min? = some a ↔ a ∈ l ∧ ∀ b ∈ l, a ≤ b := by
  haveI : Std.Antisymm ((· ≤ ·) : ℚ → ℚ → Prop) := ⟨fun h h2 => le_antisymm h h2⟩
  exact List.min?_eq_some_iff (fun a => le_refl a) (fun a b => min_choice a b)
    (fun a b c => le_min_iff)

theorem min?_eq_inf' (l : List ℚ) (h : l ≠ []) :
    l.min? = some ((Finset.range l.length).inf'
      (Finset.nonempty_range_iff.mpr (by simpa using h)) (fun i => l.getD i 0)) := by
  have hne : (Finset.range l.length).Nonempty :=
    Finset.nonempty_range_iff.mpr (by simpa using h)
  rw [min?_eq_some_iff_rat]
  constructor
  · obtain ⟨i, hi, hv⟩ := Finset.exists_mem_eq_inf' hne (fun i => l.getD i 0)
    rw [hv]
    have hi' : i < l.length := Finset.mem_range.mp hi
    rw [List.getD_eq_getElem _ _ hi']
    exact List.getElem_mem hi'
  · intro b hb
    obtain ⟨i, hi, rfl⟩ := List.mem_iff_getElem.mp hb
    have := Finset.inf'_le (s := Finset.range l.length) (fun j => l.getD j 0)
      (Finset.mem_range.mpr hi)
    rwa [List.getD_eq_getElem _ _ hi] at this

theorem length_cumprod (l : List ℚ) : (cumprod l).length = l.length :=
  length_cumulAux _ _ _

theorem length_cummax (l : List ℚ) : (cummax l).length = l.length :=
  length_cumulAux _ _ _

theorem length_cumulative (p : List ℚ) :
    (cumulative p).length = (daily_returns p).length := by
  simp [cumulative, length_cumprod]

theorem length_rolling_max (p : List ℚ) :
    (rolling_max p).length = (daily_returns p).length := by
  simp [rolling_max, length_cummax, length_cumulative]

theorem length_drawdown (p : List ℚ) :
    (drawdown p).length = (daily_returns p).length := by
  simp [drawdown, List.length_zipWith, length_cumulative, length_rolling_max]

theorem getD_map_add_one (l : List ℚ) (j : ℕ) (hj : j < l.length) :
    (l.map (fun r => 1 + r)).getD j 0 = 1 + l.getD j 0 := by
  have hj' : j < (l.map (fun r => 1 + r)).length := by simpa using hj
  rw [List.getD_eq_getElem _ _ hj', List.getD_eq_getElem _ _ hj, List.getElem_map]

theorem cumulative_getD (p : List ℚ) (i : ℕ) (hi : i < (daily_returns p).length) :
    (cumulative p).getD i 0 = specCumPath p (i + 1) := by
  have hi' : i < ((daily_returns p).map (fun r => 1 + r)).length := by simpa using hi
  rw [cumulative, cumprod_getD _ _ hi', specCumPath]
  apply Finset.prod_congr rfl
  intro j hj
  have hj' : j < (daily_returns p).length := by
    have := Finset.mem_range.mp hj; omega
  exact getD_map_add_one _ _ hj'

theorem rolling_max_getD (p : List ℚ) (i : ℕ) (hi : i < (daily_returns p).length) :
    (rolling_max p).getD i 0 = specRunMax1 p i := by
  have hi' : i < (cumulative p).length := by rw [length_cumulative]; exact hi
  rw [rolling_max, cummax_getD _ _ hi', specRunMax1]
  apply Finset.sup'_congr _ rfl
  intro j hj
  have hj' : j < (daily_returns p).length := by
    have := Finset.mem_range.mp hj; omega
  exact cumulative_getD p j hj'

theorem drawdown_getD (p : List ℚ) (i : ℕ) (hi : i < (daily_returns p).length) :
    (drawdown p).getD i 0 =
      (specCumPath p (i + 1) - specRunMax1 p i) / specRunMax1 p i := by
  have h1 : i < (cumulative p).length := by rw [length_cumulative]; exact hi
  have h2 : i < (rolling_max p).length := by rw [length_rolling_max]; exact hi
  have h3 : i < (drawdown p).length := by rw [length_drawdown]; exact hi
  rw [List.getD_eq_getElem _ _ h3]
  show (List.zipWith _ _ _).get ⟨i, h3⟩ = _
  rw [List.get_eq_getElem, List.getElem_zipWith]
  rw [← List.getD_eq_getElem _ (0 : ℚ) h1, ← List.getD_eq_getElem _ (0 : ℚ) h2,
    cumulative_getD p i hi, rolling_max_getD p i hi]

theorem drawdown_ne_nil (p : List ℚ) (h : 2 ≤ p.length) : drawdown p ≠ [] := by
  have hlen : (drawdown p).length = p.length - 1 := by
    rw [length_drawdown, length_daily_returns]
  intro hnil
  rw [hnil] at hlen
  simp at hlen
  omega

theorem max_drawdown_eq_inf' (p : List ℚ) (h : 2 ≤ p.length) :
    max_drawdown p = some (((Finset.range ((daily_returns p).length)).inf'
      (by rw [Finset.nonempty_range_iff, length_daily_returns]; omega)
      (fun i => (specCumPath p (i + 1) - specRunMax1 p i) / specRunMax1 p i)) * 100) := by
  have hne := drawdown_ne_nil p h
  rw [max_drawdown, min?_eq_inf' _ hne]
  show some (_ * 100) = some (_ * 100)
  congr 1
  congr 1
  refine Finset.inf'_congr _ (congrArg Finset.range (length_drawdown p)) ?_
  intro i hi
  exact drawdown_getD p i (by rw [← length_drawdown]; exact Finset.mem_range.mp hi)

theorem one_add_daily_returns_pos (p : List ℚ) (hpos : ∀ x ∈ p, 0 < x) (j : ℕ) :
    0 < 1 + (daily_returns p).getD j 0 := by
  by_cases hj : j < (daily_returns p).length
  · have hj' : j + 1 < p.length := by
      rw [length_daily_returns] at hj; omega
    rw [daily_returns_getD p j hj']
    have h1 : 0 < p.getD (j + 1) 0 := by
      rw [List.getD_eq_getElem _ _ hj']
      exact hpos _ (List.getElem_mem hj')
    have hj0 : j < p.length := by omega
    have h0 : 0 < p.getD j 0 := by
      rw [List.getD_eq_getElem _ _ hj0]
      exact hpos _ (List.getElem_mem hj0)
    have hq : 0 < p.getD (j + 1) 0 / p.getD j 0 := div_pos h1 h0
    linarith
  · rw [List.getD_eq_default _ _ (by omega : (daily_returns p).length ≤ j)]
    norm_num

theorem specCumPath_pos (p : List ℚ) (hpos : ∀ x ∈ p, 0 < x) (k : ℕ) :
    0 < specCumPath p k := by
  apply Finset.prod_pos
  intro j _
  exact one_add_daily_returns_pos p hpos j

theorem le_specRunMax1 (p : List ℚ) (i : ℕ) :
    specCumPath p (i + 1) ≤ specRunMax1 p i :=
  Finset.le_sup' (fun j => specCumPath p (j + 1))
    (Finset.mem_range.mpr (Nat.lt_succ_self i))

theorem specRunMax1_pos (p : List ℚ) (hpos : ∀ x ∈ p, 0 < x) (i : ℕ) :
    0 < specRunMax1 p i :=
  lt_of_lt_of_le (specCumPath_pos p hpos (i + 1)) (le_specRunMax1 p i)

theorem inf'_range_succ (f : ℕ → ℚ) (n : ℕ) (hn : n ≠ 0) :
    (Finset.range (n + 1)).inf' Finset.nonempty_range_succ f
      = min ((Finset.range n).inf' (Finset.nonempty_range_iff.mpr hn) f) (f n) := by
  apply le_antisymm
  · apply le_min
    · apply Finset.le_inf'
      intro j hj
      exact Finset.inf'_le f (Finset.mem_range.mpr (Nat.lt_succ_of_lt (Finset.mem_range.mp hj)))
    · exact Finset.inf'_le f (Finset.mem_range.mpr (Nat.lt_succ_self n))
  · apply Finset.le_inf'
    intro j hj
    rcases Nat.lt_succ_iff_lt_or_eq.mp (Finset.mem_range.mp hj) with hj' | rfl
    · exact min_le_of_left_le (Finset.inf'_le f (Finset.mem_range.mpr hj'))
    · exact min_le_right _ _

/-! ### Claim theorems -/

/-- Claim C5 (confirmed): on the series `[100, 110, 99, 121]` the code
computes the daily returns `[0.10, -0.10, 0.2222...]` (exactly
`[1/10, -1/10, 2/9]`), a total return of 21%, and a maximum drawdown of
-10%, attained where the cumulative path `0.99` sits below the running
maximum `1.10`. -/
theorem C5_example_series :
    daily_returns [100, 110, 99, 121] = [1/10, -(1/10), 2/9]
    ∧ total_return [100, 110, 99, 121] = 21
    ∧ max_drawdown [100, 110, 99, 121] = some (-10) := by
  refine ⟨?_, ?_, ?_⟩
  · norm_num [daily_returns]
  · norm_num [total_return, List.getLastI, List.headI]
  · norm_num [max_drawdown, drawdown, rolling_max, cumulative, daily_returns, cumprod,
      cummax, cumulAux, List.min?, List.headI, min_def, max_def]

/-- Claim C1 counterexample: on the one-point series `[5]` the code does
not signal any error — `calculate_metrics` returns a record. -/
theorem C1_counterexample : calculate_metrics [5] "X" ≠ none := by
  simp [calculate_metrics]

/-- Claim C1 as amended: for a one-point positive price series the code
returns a metrics record with total return 0, annualized return 0, `NaN`
volatility and max drawdown and Sharpe ratio 0, instead of signalling
`InsufficientDataError`; only the empty series fails (an uncaught index
error, modelled `none`). -/
theorem C1_single_point_returns_record (x : ℚ) (s : String) (hx : 0 < x) :
    calculate_metrics [x] s = some ⟨s, 0, 0, none, none, 0⟩
    ∧ calculate_metrics [] s = none := by
  have htr : total_return [x] = 0 := by
    rw [total_return]
    show (x / x - 1) * 100 = 0
    rw [div_self (ne_of_gt hx)]
    norm_num
  refine ⟨?_, rfl⟩
  have hann : annualized_return [x] = 0 := by
    rw [annualized_return, htr]
    norm_num [Real.one_rpow]
  have hvol : volatility [x] = none := rfl
  have hmdd : max_drawdown [x] = none := rfl
  have hsharpe : sharpe_ratio [x] = 0 := rfl
  show some (⟨s, total_return [x], annualized_return [x], volatility [x],
      max_drawdown [x], sharpe_ratio [x]⟩ : MetricsRecord) = _
  rw [htr, hann, hvol, hmdd, hsharpe]

/-- Witness for C1 at `x = 5`. -/
theorem C1_witness :
    (0 : ℚ) < 5 ∧
    (calculate_metrics [5] "A" = some ⟨"A", 0, 0, none, none, 0⟩
      ∧ calculate_metrics [] "A" = none) :=
  ⟨by norm_num, C1_single_point_returns_record 5 "A" (by norm_num)⟩

/-- Claim C3 counterexample: on the two-point series `[100, 110]` there is
a single return observation, the pandas sample standard deviation is `NaN`
(`none`), and the volatility is therefore `NaN`, not 0 as claimed. -/
theorem C3_counterexample :
    volatility [100, 110] = none ∧ volatility [100, 110] ≠ some 0 := by
  have h : volatility [100, 110] = none := by
    norm_num [volatility, seriesStd, daily_returns]
  exact ⟨h, by rw [h]; exact fun hc => Option.noConfusion hc⟩

/-- Claim C4 counterexample: on the constant two-point series `[1, 1]` the
volatility is `NaN` (`none`), not 0 as claimed. -/
theorem C4_counterexample :
    volatility [(1 : ℚ), 1] = none ∧ volatility [(1 : ℚ), 1] ≠ some 0 := by
  have h : volatility [(1 : ℚ), 1] = none := by
    norm_num [volatility, seriesStd, daily_returns]
  exact ⟨h, by rw [h]; exact fun hc => Option.noConfusion hc⟩

theorem max_drawdown_zero_of_runmax (p : List ℚ) (h : 2 ≤ p.length)
    (hrm : ∀ i, specRunMax1 p i = specCumPath p (i + 1)) :
    max_drawdown p = some 0 := by
  rw [max_drawdown_eq_inf' p h]
  congr 1
  have hz : ∀ i ∈ Finset.range ((daily_returns p).length),
      (specCumPath p (i + 1) - specRunMax1 p i) / specRunMax1 p i = 0 := by
    intro i _
    rw [hrm i, sub_self, zero_div]
  rw [Finset.inf'_congr _ rfl hz, Finset.inf'_const, zero_mul]

theorem headI_mem_of_ne_nil (p : List ℚ) (h : p ≠ []) : p.headI ∈ p := by
  cases p with
  | nil => exact absurd rfl h
  | cons a l => exact List.mem_cons_self a l

theorem getLastI_mem_of_ne_nil (p : List ℚ) (h : p ≠ []) : p.getLastI ∈ p := by
  cases p with
  | nil => exact absurd rfl h
  | cons a l =>
    rw [List.getLastI_eq_getLast?, List.getLast?_eq_getLast (a :: l) (by simp)]
    exact List.getLast_mem (by simp)

theorem sup'_range_one (f : ℕ → ℚ) (H : (Finset.range 1).Nonempty) :
    (Finset.range 1).sup' H f = f 0 := by
  apply le_antisymm
  · apply Finset.sup'_le
    intro j hj
    have hj0 : j = 0 := by
      have := Finset.mem_range.mp hj; omega
    rw [hj0]
  · exact Finset.le_sup' f (Finset.mem_range.mpr Nat.one_pos)

theorem inf'_range_one (f : ℕ → ℚ) (H : (Finset.range 1).Nonempty) :
    (Finset.range 1).inf' H f = f 0 := by
  apply le_antisymm
  · exact Finset.inf'_le f (Finset.mem_range.mpr Nat.one_pos)
  · apply Finset.le_inf'
    intro j hj
    have hj0 : j = 0 := by
      have := Finset.mem_range.mp hj; omega
    rw [hj0]

/-- Claim C2 counterexample: on `[100, 90]` (a decline on the very first
return) the code computes maximum drawdown 0, while the formula of the
spec — whose path starts at `c_0 = 1` — gives -10. -/
theorem C2_counterexample :
    max_drawdown [100, 90] = some 0
    ∧ maxDrawdownSpec [100, 90] = -10
    ∧ max_drawdown [100, 90] ≠ some (maxDrawdownSpec [100, 90]) := by
  have hcode : max_drawdown [100, 90] = some 0 := by
    norm_num [max_drawdown, drawdown, rolling_max, cumulative, daily_returns, cumprod,
      cummax, cumulAux, List.min?, List.headI, min_def, max_def]
  have hr : daily_returns [100, 90] = [-(1/10)] := by norm_num [daily_returns]
  have hc0 : specCumPath [100, 90] 0 = 1 := by
    simp [specCumPath]
  have hc1 : specCumPath [100, 90] 1 = 9/10 := by
    rw [specCumPath, Finset.prod_range_one, hr]
    norm_num
  have hm0 : specRunMax [100, 90] 0 = 1 := by
    rw [specRunMax]
    exact (sup'_range_one (specCumPath [100, 90]) Finset.nonempty_range_succ).trans hc0
  have hm1 : specRunMax [100, 90] 1 = 1 := by
    rw [specRunMax, sup'_range_succ (specCumPath [100, 90]) 1 one_ne_zero,
      sup'_range_one, hc0, hc1]
    norm_num [max_def]
  have hlen : (daily_returns [100, 90]).length = 1 := by rw [hr]; rfl
  have hspec : maxDrawdownSpec [100, 90] = -10 := by
    rw [maxDrawdownSpec]
    simp only [hlen]
    rw [inf'_range_succ _ 1 one_ne_zero, inf'_range_one]
    rw [hc0, hc1, hm0, hm1]
    norm_num [min_def]
  refine ⟨hcode, hspec, ?_⟩
  rw [hcode, hspec]
  intro hcon
  rw [Option.some.injEq] at hcon
  norm_num at hcon

/-- Claim C2 as amended: the maximum drawdown equals the minimum, over the
cumulative path the code actually builds — `c_1 .. c_m` only, with no
initial point `c_0 = 1` — of `(c_i - runningMax_i) / runningMax_i × 100`,
where the running maximum ranges over `c_1 .. c_i` only.  A price decline
on the very first return therefore does not count as a drawdown against
the initial value 1 (its drawdown term is 0). -/
theorem C2_drawdown_path_without_initial_point (p : List ℚ) (h : 2 ≤ p.length) :
    max_drawdown p = some (((Finset.range ((daily_returns p).length)).inf'
      (by rw [Finset.nonempty_range_iff, length_daily_returns]; omega)
      (fun i => (specCumPath p (i + 1) - specRunMax1 p i) / specRunMax1 p i)) * 100) :=
  max_drawdown_eq_inf' p h

/-- Witness for C2 (amended) at the series `[100, 90]`. -/
theorem C2_witness :
    2 ≤ ([100, 90] : List ℚ).length ∧
    max_drawdown [100, 90] = some (((Finset.range ((daily_returns [100, 90]).length)).inf'
      (by rw [Finset.nonempty_range_iff, length_daily_returns]; norm_num)
      (fun i => (specCumPath [100, 90] (i + 1) - specRunMax1 [100, 90] i)
        / specRunMax1 [100, 90] i)) * 100) :=
  ⟨by norm_num, C2_drawdown_path_without_initial_point [100, 90] (by norm_num)⟩

theorem total_return_constant (p : List ℚ) (c : ℚ) (h2 : 1 ≤ p.length)
    (hc : c ≠ 0) (hconst : ∀ x ∈ p, x = c) : total_return p = 0 := by
  have hne : p ≠ [] := by
    intro hnil; rw [hnil] at h2; simp at h2
  have hH : p.headI = c := hconst _ (headI_mem_of_ne_nil p hne)
  have hL : p.getLastI = c := hconst _ (getLastI_mem_of_ne_nil p hne)
  rw [total_return, hH, hL, div_self hc]
  norm_num

theorem daily_returns_constant (p : List ℚ) (c : ℚ) (hc : c ≠ 0)
    (hconst : ∀ x ∈ p, x = c) (j : ℕ) (hj : j < (daily_returns p).length) :
    (daily_returns p).getD j 0 = 0 := by
  have hj' : j + 1 < p.length := by rw [length_daily_returns] at hj; omega
  rw [daily_returns_getD p j hj']
  have e1 : p.getD (j + 1) 0 = c := by
    rw [List.getD_eq_getElem _ _ hj']
    exact hconst _ (List.getElem_mem hj')
  have hj0 : j < p.length := by omega
  have e0 : p.getD j 0 = c := by
    rw [List.getD_eq_getElem _ _ hj0]
    exact hconst _ (List.getElem_mem hj0)
  rw [e1, e0, div_self hc]
  ring

/-- Claim C4 as amended: for a constant positive price series of length at
least 2 the total return, Sharpe ratio and maximum drawdown are all 0, and
the volatility is 0 only when at least 3 points exist; with exactly 2
points the volatility is `NaN` (`none`), not 0. -/
theorem C4_constant_series (p : List ℚ) (c : ℚ) (h2 : 2 ≤ p.length)
    (hcpos : 0 < c) (hconst : ∀ x ∈ p, x = c) :
    total_return p = 0
    ∧ max_drawdown p = some 0
    ∧ sharpe_ratio p = 0
    ∧ (p.length = 2 → volatility p = none)
    ∧ (3 ≤ p.length → volatility p = some 0) := by
  have hc : c ≠ 0 := ne_of_gt hcpos
  have htr : total_return p = 0 := total_return_constant p c (by omega) hc hconst
  have hpath : ∀ k, specCumPath p k = 1 := by
    intro k
    rw [specCumPath]
    apply Finset.prod_eq_one
    intro j _
    by_cases hjm : j < (daily_returns p).length
    · rw [daily_returns_constant p c hc hconst j hjm]; norm_num
    · rw [List.getD_eq_default _ _ (by omega)]; norm_num
  have hrm : ∀ i, specRunMax1 p i = specCumPath p (i + 1) := by
    intro i
    rw [specRunMax1, hpath (i + 1)]
    rw [show (fun j => specCumPath p (j + 1)) = fun _ => (1 : ℚ) from
      funext (fun j => hpath (j + 1))]
    exact Finset.sup'_const Finset.nonempty_range_succ 1
  have hmdd : max_drawdown p = some 0 := max_drawdown_zero_of_runmax p h2 hrm
  have hrep : daily_returns p = List.replicate ((daily_returns p).length) 0 := by
    apply List.eq_replicate_iff.mpr
    refine ⟨rfl, ?_⟩
    intro b hb
    obtain ⟨j, hj, rfl⟩ := List.mem_iff_getElem.mp hb
    rw [← List.getD_eq_getElem _ (0 : ℚ) hj]
    exact daily_returns_constant p c hc hconst j hj
  have hvar : sampleVariance (daily_returns p) = 0 := by
    rw [hrep]
    simp [sampleVariance, seriesMean, List.map_replicate, List.sum_replicate]
  have hvol3 : 3 ≤ p.length → volatility p = some 0 := by
    intro h3
    have hm2 : 2 ≤ (daily_returns p).length := by
      rw [length_daily_returns]; omega
    rw [volatility, seriesStd, if_pos hm2, hvar]
    simp [Real.sqrt_zero]
  have hvol2 : p.length = 2 → volatility p = none := by
    intro hn2
    have hm1 : ¬ (2 ≤ (daily_returns p).length) := by
      rw [length_daily_returns]; omega
    rw [volatility, seriesStd, if_neg hm1]
    rfl
  refine ⟨htr, hmdd, ?_, hvol2, hvol3⟩
  rcases Nat.lt_or_ge p.length 3 with hn | hn
  · have hn2 : p.length = 2 := by omega
    rw [sharpe_ratio, hvol2 hn2]
  · rw [sharpe_ratio, hvol3 hn]
    norm_num

/-- Witness for C4 at the constant series `[2, 2, 2]`. -/
theorem C4_witness :
    2 ≤ ([2, 2, 2] : List ℚ).length ∧ (0 : ℚ) < 2 ∧ (∀ x ∈ ([2, 2, 2] : List ℚ), x = 2) ∧
    (total_return [2, 2, 2] = 0
      ∧ max_drawdown [2, 2, 2] = some 0
      ∧ sharpe_ratio [2, 2, 2] = 0
      ∧ (([2, 2, 2] : List ℚ).length = 2 → volatility [2, 2, 2] = none)
      ∧ (3 ≤ ([2, 2, 2] : List ℚ).length → volatility [2, 2, 2] = some 0)) :=
  ⟨by norm_num, by norm_num, by norm_num,
    C4_constant_series [2, 2, 2] 2 (by norm_num) (by norm_num) (by norm_num)⟩

theorem list_sum_cast (r : List ℚ) :
    ((r.sum : ℚ) : ℝ) = (r.map (fun x : ℚ => (x : ℝ))).sum :=
  map_list_sum (Rat.castHom ℝ) r

theorem seriesMean_cast (r : List ℚ) : ((seriesMean r : ℚ) : ℝ) = seriesMeanR r := by
  rw [seriesMean, seriesMeanR, Rat.cast_div, list_sum_cast]
  norm_num

theorem sampleVariance_cast (r : List ℚ) :
    ((sampleVariance r : ℚ) : ℝ)
      = (r.map (fun x : ℚ => ((x : ℝ) - seriesMeanR r) ^ 2)).sum / ((r.length : ℝ) - 1) := by
  rw [sampleVariance, Rat.cast_div, list_sum_cast, List.map_map]
  congr 1
  · congr 1
    apply List.map_congr_left
    intro x _
    show ((x - seriesMean r) ^ 2 : ℚ) = ((x : ℝ) - seriesMeanR r) ^ 2
    push_cast [seriesMean_cast]
    ring
  · push_cast
    ring

/-- Claim C3 as amended: for a price series with at least 3 points the
volatility equals the sample standard deviation of the daily returns
(dividing by `n_returns - 1`) times `sqrt 252` times 100; but with exactly
2 prices there is a single return observation and the volatility is `NaN`
(`none`), not 0. -/
theorem C3_volatility_formula (p : List ℚ) (h : 2 ≤ p.length) :
    (3 ≤ p.length →
      volatility p = some (sampleStdR (daily_returns p) * Real.sqrt 252 * 100))
    ∧ (p.length = 2 → volatility p = none) := by
  constructor
  · intro h3
    have hm2 : 2 ≤ (daily_returns p).length := by rw [length_daily_returns]; omega
    rw [volatility, seriesStd, if_pos hm2]
    show some _ = some _
    congr 2
    rw [sampleStdR, sampleVariance_cast]
  · intro h2'
    have hm1 : ¬ (2 ≤ (daily_returns p).length) := by rw [length_daily_returns]; omega
    rw [volatility, seriesStd, if_neg hm1]
    rfl

/-- Witness for C3 at the series `[100, 110, 121]`. -/
theorem C3_witness :
    2 ≤ ([100, 110, 121] : List ℚ).length ∧
    ((3 ≤ ([100, 110, 121] : List ℚ).length →
        volatility [100, 110, 121]
          = some (sampleStdR (daily_returns [100, 110, 121]) * Real.sqrt 252 * 100))
      ∧ (([100, 110, 121] : List ℚ).length = 2 → volatility [100, 110, 121] = none)) :=
  ⟨by norm_num, C3_volatility_formula [100, 110, 121] (by norm_num)⟩

/-- Claim C6 (confirmed): for every series of length at least 2, the
Sharpe ratio equals `(annualized/100 - RISK_FREE_RATE) / (volatility/100)`
whenever the volatility is a nonzero number, and is exactly 0 — neither an
error nor infinite — when the volatility is 0 (or `NaN`, which also fails
the `> 0` test). -/
theorem C6_sharpe_cases (p : List ℚ) (h : 2 ≤ p.length) :
    (∀ v : ℝ, volatility p = some v → v ≠ 0 →
      sharpe_ratio p = (annualized_return p / 100 - RISK_FREE_RATE) / (v / 100))
    ∧ (volatility p = some 0 → sharpe_ratio p = 0)
    ∧ (volatility p = none → sharpe_ratio p = 0) := by
  refine ⟨?_, ?_, ?_⟩
  · intro v hv hvne
    have hvnn : 0 ≤ v := by
      rw [volatility] at hv
      obtain ⟨s, hs, hsv⟩ := Option.map_eq_some'.mp hv
      rw [seriesStd] at hs
      by_cases hlen : 2 ≤ (daily_returns p).length
      · rw [if_pos hlen, Option.some.injEq] at hs
        rw [← hsv, ← hs]
        positivity
      · rw [if_neg hlen] at hs
        exact absurd hs (by simp)
    have hvpos : 0 < v := lt_of_le_of_ne hvnn (Ne.symm hvne)
    simp only [sharpe_ratio, hv]
    rw [if_pos hvpos]
  · intro h0
    simp only [sharpe_ratio, h0]
    norm_num
  · intro hnone
    simp only [sharpe_ratio, hnone]

/-- Witness for C6 at the series `[100, 110, 121]`. -/
theorem C6_witness :
    2 ≤ ([100, 110, 121] : List ℚ).length ∧
    ((∀ v : ℝ, volatility [100, 110, 121] = some v → v ≠ 0 →
        sharpe_ratio [100, 110, 121]
          = (annualized_return [100, 110, 121] / 100 - RISK_FREE_RATE) / (v / 100))
      ∧ (volatility [100, 110, 121] = some 0 → sharpe_ratio [100, 110, 121] = 0)
      ∧ (volatility [100, 110, 121] = none → sharpe_ratio [100, 110, 121] = 0)) :=
  ⟨by norm_num, C6_sharpe_cases [100, 110, 121] (by norm_num)⟩

/-- Claim C8 (confirmed): for every non-empty price series with positive
first price, the normalized series is the elementwise map
`p_i / p_0 * 100` (no path dependence), and its first value is exactly
100. -/
theorem C8_normalization (p : List ℚ) (hne : p ≠ []) (hpos : 0 < p.headI) :
    (∀ i, i < p.length → (normalizeSeries p).getD i 0 = p.getD i 0 / p.headI * 100)
    ∧ (normalizeSeries p).headI = 100 := by
  constructor
  · intro i hi
    have hi2 : i < (normalizeSeries p).length := by simpa [normalizeSeries] using hi
    rw [List.getD_eq_getElem _ _ hi2, List.getD_eq_getElem _ _ hi]
    show (p.map _).get ⟨i, hi2⟩ = _
    rw [List.get_eq_getElem, List.getElem_map]
  · cases p with
    | nil => exact absurd rfl hne
    | cons a l =>
      have ha : (0 : ℚ) < a := hpos
      show a / a * 100 = 100
      rw [div_self (ne_of_gt ha)]
      norm_num

/-- Witness for C8 at the series `[50, 25]`. -/
theorem C8_witness :
    ([50, 25] : List ℚ) ≠ [] ∧ 0 < ([50, 25] : List ℚ).headI ∧
    ((∀ i, i < ([50, 25] : List ℚ).length →
        (normalizeSeries [50, 25]).getD i 0
          = ([50, 25] : List ℚ).getD i 0 / ([50, 25] : List ℚ).headI * 100)
      ∧ (normalizeSeries [50, 25]).headI = 100) :=
  ⟨by simp, by norm_num [List.headI],
    C8_normalization [50, 25] (by simp) (by norm_num [List.headI])⟩

/-- Claim C9 (confirmed): for positive series of length at least 2 the
maximum drawdown is a number and is at most 0, the sign of the total
return matches the sign of `p_last - p_first`, and a strictly increasing
series has maximum drawdown exactly 0. -/
theorem C9_drawdown_invariants (p : List ℚ) (h2 : 2 ≤ p.length)
    (hpos : ∀ x ∈ p, 0 < x) :
    (∃ v, max_drawdown p = some v ∧ v ≤ 0)
    ∧ (0 < total_return p ↔ p.headI < p.getLastI)
    ∧ (total_return p = 0 ↔ p.getLastI = p.headI)
    ∧ (total_return p < 0 ↔ p.getLastI < p.headI)
    ∧ (List.Chain' (· < ·) p → max_drawdown p = some 0) := by
  have hne : p ≠ [] := by
    intro hnil; rw [hnil] at h2; simp at h2
  have hH : 0 < p.headI := hpos _ (headI_mem_of_ne_nil p hne)
  have hfirst : ∃ v, max_drawdown p = some v ∧ v ≤ 0 := by
    refine ⟨_, max_drawdown_eq_inf' p h2, ?_⟩
    have h0mem : 0 ∈ Finset.range ((daily_returns p).length) := by
      rw [Finset.mem_range, length_daily_returns]; omega
    have hf0 : (specCumPath p (0 + 1) - specRunMax1 p 0) / specRunMax1 p 0 ≤ 0 :=
      div_nonpos_of_nonpos_of_nonneg (sub_nonpos.mpr (le_specRunMax1 p 0))
        (le_of_lt (specRunMax1_pos p hpos 0))
    have hinf := le_trans (Finset.inf'_le
      (fun i => (specCumPath p (i + 1) - specRunMax1 p i) / specRunMax1 p i) h0mem) hf0
    have := mul_le_mul_of_nonneg_right hinf (by norm_num : (0 : ℚ) ≤ 100)
    simpa using this
  have hsign1 : 0 < total_return p ↔ p.headI < p.getLastI := by
    rw [total_return]
    constructor
    · intro h'
      have ht : 0 < p.getLastI / p.headI - 1 := by nlinarith
      exact (one_lt_div hH).mp (sub_pos.mp ht)
    · intro h'
      have h1 : 1 < p.getLastI / p.headI := (one_lt_div hH).mpr h'
      nlinarith
  have hsign2 : total_return p = 0 ↔ p.getLastI = p.headI := by
    rw [total_return]
    constructor
    · intro h'
      rcases mul_eq_zero.mp h' with hq | habs
      · have hq1 : p.getLastI / p.headI = 1 := by linarith
        exact (div_eq_one_iff_eq (ne_of_gt hH)).mp hq1
      · exact absurd habs (by norm_num)
    · intro h'
      rw [h', div_self (ne_of_gt hH)]
      ring
  have hsign3 : total_return p < 0 ↔ p.getLastI < p.headI := by
    rw [total_return]
    constructor
    · intro h'
      have ht : p.getLastI / p.headI - 1 < 0 := by nlinarith
      have hq : p.getLastI / p.headI < 1 := by linarith
      exact (div_lt_one hH).mp hq
    · intro h'
      have hq : p.getLastI / p.headI < 1 := (div_lt_one hH).mpr h'
      nlinarith
  have hchain : List.Chain' (· < ·) p → max_drawdown p = some 0 := by
    intro hch
    have hret : ∀ k, 0 ≤ (daily_returns p).getD k 0 := by
      intro k
      by_cases hk : k < (daily_returns p).length
      · have hk' : k + 1 < p.length := by rw [length_daily_returns] at hk; omega
        have hkp : k < p.length := by omega
        rw [daily_returns_getD p k hk']
        have hlt : p.getD k 0 < p.getD (k + 1) 0 := by
          have hg := List.chain'_iff_get.mp hch k (by omega)
          rw [List.getD_eq_getElem _ _ hk', List.getD_eq_getElem _ _ hkp]
          simpa [List.get_eq_getElem] using hg
        have hpk : 0 < p.getD k 0 := by
          rw [List.getD_eq_getElem _ _ hkp]
          exact hpos _ (List.getElem_mem hkp)
        have hone : 1 ≤ p.getD (k + 1) 0 / p.getD k 0 := by
          rw [le_div_iff₀ hpk]
          linarith
        linarith
      · rw [List.getD_eq_default _ _ (by omega)]
    have hmono : Monotone (specCumPath p) := by
      apply monotone_nat_of_le_succ
      intro k
      have hstep : specCumPath p (k + 1)
          = specCumPath p k * (1 + (daily_returns p).getD k 0) := by
        rw [specCumPath, specCumPath, Finset.prod_range_succ]
      rw [hstep]
      have hck : 0 < specCumPath p k := specCumPath_pos p hpos k
      have h1k : 1 ≤ 1 + (daily_returns p).getD k 0 := by
        have := hret k; linarith
      exact le_mul_of_one_le_right (le_of_lt hck) h1k
    have hrm : ∀ i, specRunMax1 p i = specCumPath p (i + 1) := by
      intro i
      apply le_antisymm
      · apply Finset.sup'_le
        intro j hj
        exact hmono (Nat.succ_le_succ (Nat.lt_succ_iff.mp (Finset.mem_range.mp hj)))
      · exact le_specRunMax1 p i
    exact max_drawdown_zero_of_runmax p h2 hrm
  exact ⟨hfirst, hsign1, hsign2, hsign3, hchain⟩

/-- Witness for C9 at the strictly increasing series `[1, 2, 3]`. -/
theorem C9_witness :
    2 ≤ ([1, 2, 3] : List ℚ).length ∧ (∀ x ∈ ([1, 2, 3] : List ℚ), 0 < x) ∧
    ((∃ v, max_drawdown [1, 2, 3] = some v ∧ v ≤ 0)
      ∧ (0 < total_return [1, 2, 3]
          ↔ ([1, 2, 3] : List ℚ).headI < ([1, 2, 3] : List ℚ).getLastI)
      ∧ (total_return [1, 2, 3] = 0
          ↔ ([1, 2, 3] : List ℚ).getLastI = ([1, 2, 3] : List ℚ).headI)
      ∧ (total_return [1, 2, 3] < 0
          ↔ ([1, 2, 3] : List ℚ).getLastI < ([1, 2, 3] : List ℚ).headI)
      ∧ (List.Chain' (· < ·) ([1, 2, 3] : List ℚ) → max_drawdown [1, 2, 3] = some 0)) :=
  ⟨by norm_num, by norm_num,
    C9_drawdown_invariants [1, 2, 3] (by norm_num) (by norm_num)⟩

theorem daily_returns_smul (p : List ℚ) (c : ℚ) (hc : c ≠ 0) :
    daily_returns (p.map (fun x => c * x)) = daily_returns p := by
  rw [daily_returns, daily_returns, ← List.map_tail, List.zipWith_map]
  have hfun : (fun a b : ℚ => c * b / (c * a) - 1) = fun a b : ℚ => b / a - 1 := by
    funext a b
    rw [mul_div_mul_left b a hc]
  rw [hfun]

theorem headI_map_mul (p : List ℚ) (c : ℚ) :
    (p.map (fun x => c * x)).headI = c * p.headI := by
  cases p with
  | nil => show (0 : ℚ) = c * 0; rw [mul_zero]
  | cons a l => rfl

theorem getLastI_map_mul (p : List ℚ) (c : ℚ) :
    (p.map (fun x => c * x)).getLastI = c * p.getLastI := by
  cases p with
  | nil => show (0 : ℚ) = c * 0; rw [mul_zero]
  | cons a l =>
    rw [List.getLastI_eq_getLast?, List.getLastI_eq_getLast?, List.getLast?_map,
      List.getLast?_eq_getLast (a :: l) (by simp)]
    rfl

theorem total_return_smul (p : List ℚ) (c : ℚ) (hc : c ≠ 0) :
    total_return (p.map (fun x => c * x)) = total_return p := by
  rw [total_return, total_return, headI_map_mul, getLastI_map_mul,
    mul_div_mul_left _ _ hc]

/-- Claim C10 (confirmed): multiplying every price by a positive constant
changes no computed metric and does not change the normalized series —
both depend only on price ratios. -/
theorem C10_scale_invariance (p : List ℚ) (c : ℚ) (s : String) (h2 : 2 ≤ p.length)
    (hc : 0 < c) (hpos : ∀ x ∈ p, 0 < x) :
    calculate_metrics (p.map (fun x => c * x)) s = calculate_metrics p s
    ∧ normalizeSeries (p.map (fun x => c * x)) = normalizeSeries p := by
  have hc0 : c ≠ 0 := ne_of_gt hc
  have hdr := daily_returns_smul p c hc0
  have htr := total_return_smul p c hc0
  have hlen : (p.map (fun x => c * x)).length = p.length := by simp
  have hyears : years (p.map (fun x => c * x)) = years p := by
    rw [years, years, hlen]
  have hann : annualized_return (p.map (fun x => c * x)) = annualized_return p := by
    rw [annualized_return, annualized_return, htr, hyears]
  have hvol : volatility (p.map (fun x => c * x)) = volatility p := by
    rw [volatility, volatility, hdr]
  have hmdd : max_drawdown (p.map (fun x => c * x)) = max_drawdown p := by
    rw [max_drawdown, max_drawdown, drawdown, drawdown, rolling_max, rolling_max,
      cumulative, cumulative, hdr]
  have hsharpe : sharpe_ratio (p.map (fun x => c * x)) = sharpe_ratio p := by
    simp only [sharpe_ratio, hvol, hann]
  constructor
  · cases p with
    | nil => simp at h2
    | cons a l =>
      show some _ = some _
      rw [htr, hann, hvol, hmdd, hsharpe]
  · rw [normalizeSeries, normalizeSeries, headI_map_mul, List.map_map]
    apply List.map_congr_left
    intro x _
    show c * x / (c * p.headI) * 100 = x / p.headI * 100
    rw [mul_div_mul_left x p.headI hc0]

/-- Witness for C10 at the series `[100, 110]` scaled by 2. -/
theorem C10_witness :
    2 ≤ ([100, 110] : List ℚ).length ∧ (0 : ℚ) < 2 ∧
    (∀ x ∈ ([100, 110] : List ℚ), 0 < x) ∧
    (calculate_metrics (([100, 110] : List ℚ).map (fun x => 2 * x)) "A"
        = calculate_metrics [100, 110] "A"
      ∧ normalizeSeries (([100, 110] : List ℚ).map (fun x => 2 * x))
        = normalizeSeries [100, 110]) :=
  ⟨by norm_num, by norm_num, by norm_num,
    C10_scale_invariance [100, 110] 2 "A" (by norm_num) (by norm_num) (by norm_num)⟩

theorem calculate_metrics_ticker (p : List ℚ) (n : String) (m : MetricsRecord)
    (h : calculate_metrics p n = some m) : m.ticker = n := by
  cases p with
  | nil => exact absurd h (by simp [calculate_metrics])
  | cons a l =>
    have hX : (⟨n, total_return (a :: l), annualized_return (a :: l),
        volatility (a :: l), max_drawdown (a :: l), sharpe_ratio (a :: l)⟩
          : MetricsRecord) = m :=
      Option.some.inj h
    rw [← hX]

theorem processTicker_ticker (fetch : String → Option (List ℚ)) (t : String)
    (r : MetricsRecord × List ℚ) (h : processTicker fetch t = some r) :
    r.1.ticker = t := by
  cases hf : fetch t with
  | none =>
    simp only [processTicker, hf] at h
    exact Option.noConfusion h
  | some prices =>
    simp only [processTicker, hf] at h
    cases hm : calculate_metrics prices t with
    | none =>
      simp only [hm] at h
      exact Option.noConfusion h
    | some m =>
      simp only [hm, Option.some.injEq] at h
      rw [← h]
      exact calculate_metrics_ticker prices t m hm

theorem foldl_runStep (fetch : String → Option (List ℚ)) (ts : List String)
    (a : List MetricsRecord) (b : List (String × List ℚ)) :
    ts.foldl (runStep fetch) (a, b)
      = (a ++ ts.filterMap (fun t => (processTicker fetch t).map Prod.fst),
         b ++ ts.filterMap (fun t => (processTicker fetch t).map (fun r => (t, r.2)))) := by
  induction ts generalizing a b with
  | nil => simp
  | cons t ts ih =>
    rw [List.foldl_cons]
    cases hpt : processTicker fetch t with
    | none =>
      have hstep : runStep fetch (a, b) t = (a, b) := by
        simp only [runStep, hpt]
      rw [hstep, ih]
      simp [List.filterMap_cons, hpt]
    | some r =>
      obtain ⟨m, pr⟩ := r
      have hstep : runStep fetch (a, b) t = (a ++ [m], b ++ [(t, pr)]) := by
        simp only [runStep, hpt]
      rw [hstep, ih]
      simp [List.filterMap_cons, hpt]

theorem filterMap_prices_keys (fetch : String → Option (List ℚ)) (ts : List String) :
    (ts.filterMap (fun t => (processTicker fetch t).map (fun r => (t, r.2)))).map Prod.fst
      = ts.filter (fun t => (processTicker fetch t).isSome) := by
  induction ts with
  | nil => rfl
  | cons t ts ih =>
    cases hpt : processTicker fetch t with
    | none => simp [List.filterMap_cons, List.filter_cons, hpt, ih]
    | some r => simp [List.filterMap_cons, List.filter_cons, hpt, ih]

theorem filterMap_metrics_names (fetch : String → Option (List ℚ)) (ts : List String) :
    (ts.filterMap (fun t => (processTicker fetch t).map Prod.fst)).map MetricsRecord.ticker
      = ts.filter (fun t => (processTicker fetch t).isSome) := by
  induction ts with
  | nil => rfl
  | cons t ts ih =>
    cases hpt : processTicker fetch t with
    | none => simp [List.filterMap_cons, List.filter_cons, hpt, ih]
    | some r =>
      simp [List.filterMap_cons, List.filter_cons, hpt, ih,
        processTicker_ticker fetch t r hpt]

theorem filterMap_metrics_eq_nil_iff (fetch : String → Option (List ℚ)) (ts : List String) :
    ts.filterMap (fun t => (processTicker fetch t).map Prod.fst) = []
      ↔ ∀ t ∈ ts, processTicker fetch t = none := by
  rw [List.filterMap_eq_nil_iff]
  constructor
  · intro h t ht
    exact Option.map_eq_none'.mp (h t ht)
  · intro h t ht
    rw [h t ht]
    rfl

theorem filter_isSome_eq_nil_iff (fetch : String → Option (List ℚ)) (ts : List String) :
    ts.filter (fun t => (processTicker fetch t).isSome) = []
      ↔ ∀ t ∈ ts, processTicker fetch t = none := by
  rw [List.filter_eq_nil_iff]
  constructor
  · intro h t ht
    have h2 := h t ht
    cases hpt : processTicker fetch t with
    | none => rfl
    | some r => rw [hpt] at h2; simp at h2
  · intro h t ht
    rw [h t ht]
    simp

/-- Claim C7 (confirmed): the runner processes symbols independently — a
failed symbol (supplier `NotFound` or a metrics failure) is excluded from
both output collections without aborting the rest; the outputs contain
exactly the successful symbols in input order with the benchmark last (it
is appended after the ticker loop); and when every symbol fails the run
ends in the terminal no-data outcome (`none`). -/
theorem C7_runner_skips_failures (fetch : String → Option (List ℚ))
    (tickers : List String) (benchmark : Option String) :
    (runComparison fetch tickers benchmark = none
      ↔ ∀ t ∈ tickers ++ benchmark.toList, processTicker fetch t = none)
    ∧ (runComparison fetch tickers benchmark).map
        (fun r => r.1.map MetricsRecord.ticker)
      = (if (tickers ++ benchmark.toList).filter
            (fun t => (processTicker fetch t).isSome) = []
         then none
         else some ((tickers ++ benchmark.toList).filter
           (fun t => (processTicker fetch t).isSome)))
    ∧ (runComparison fetch tickers benchmark).map (fun r => r.2.map Prod.fst)
      = (if (tickers ++ benchmark.toList).filter
            (fun t => (processTicker fetch t).isSome) = []
         then none
         else some ((tickers ++ benchmark.toList).filter
           (fun t => (processTicker fetch t).isSome))) := by
  have hfold := foldl_runStep fetch (tickers ++ benchmark.toList) [] []
  simp only [List.nil_append] at hfold
  have hrun : runComparison fetch tickers benchmark
      = if ((tickers ++ benchmark.toList).filterMap
            (fun t => (processTicker fetch t).map Prod.fst)).isEmpty
        then none
        else some
          ((tickers ++ benchmark.toList).filterMap
            (fun t => (processTicker fetch t).map Prod.fst),
           (tickers ++ benchmark.toList).filterMap
            (fun t => (processTicker fetch t).map (fun r => (t, r.2)))) := by
    rw [runComparison, hfold]
  by_cases hcase : ∀ t ∈ tickers ++ benchmark.toList, processTicker fetch t = none
  · have h1 : (tickers ++ benchmark.toList).filterMap
        (fun t => (processTicker fetch t).map Prod.fst) = [] :=
      (filterMap_metrics_eq_nil_iff fetch _).mpr hcase
    have h2 : (tickers ++ benchmark.toList).filter
        (fun t => (processTicker fetch t).isSome) = [] :=
      (filter_isSome_eq_nil_iff fetch _).mpr hcase
    rw [hrun, h1, h2]
    refine ⟨iff_of_true (by simp) hcase, ?_, ?_⟩
    · simp
    · simp
  · have h1 : ¬ ((tickers ++ benchmark.toList).filterMap
        (fun t => (processTicker fetch t).map Prod.fst) = []) :=
      fun hh => hcase ((filterMap_metrics_eq_nil_iff fetch _).mp hh)
    have h2 : ¬ ((tickers ++ benchmark.toList).filter
        (fun t => (processTicker fetch t).isSome) = []) :=
      fun hh => hcase ((filter_isSome_eq_nil_iff fetch _).mp hh)
    rw [hrun, if_neg (by simpa [List.isEmpty_iff] using h1)]
    refine ⟨iff_of_false (by simp) hcase, ?_, ?_⟩
    · rw [if_neg h2, Option.map_some']
      rw [filterMap_metrics_names]
    · rw [if_neg h2, Option.map_some']
      rw [filterMap_prices_keys]
